import Mathlib

/-
  Verification of the Redis cacher core (src/cachers/redis.js) of the
  moleculer repository.

  The cacher is embedded shallowly: every asynchronous client call is
  represented by its settled outcome (`Except RErr _` for a promise that
  may reject, `Option String` for a Redis GET that may miss), the
  serializer (JSON.stringify / JSON.parse) is an abstract pair of
  functions since the serialization format is outside the core, and the
  scan-stream of a node is represented by the list of key batches it
  emits followed by its terminal event (clean end or stream error).
  Side effects that matter to the specification (issued deletes, stream
  pause/resume, log lines) are collected into explicit traces.
-/

namespace RedisCacher

/-- A node-level (connection / command) error as it travels through the
cacher: Redis errors are JS objects; `_nodeScanDel` mutates them with an
extra `pattern` property (`err.pattern = pattern`), so the field is an
`Option String` that is `none` while the property is unset. -/
structure RErr where
  msg : String
  pattern : Option String
deriving DecidableEq, Repr

/-- Abstract structured values (the `data` argument of `set`); the
serialization format is out of scope, so values stay opaque. -/
structure Value where
  id : Nat
deriving DecidableEq, Repr

/-- Outcome of JSON.parse on a raw string: the parsed value or a thrown
SyntaxError (carried as its message). -/
abbrev ParseFn := String → Except String Value

/-- Log lines the cacher emits that the specification talks about. -/
inductive LogLine
  | parseError (raw : String)
deriving DecidableEq, Repr

/-! ### get (redis.js lines 132–145)

`get(key)` resolves `client.get(this.prefix + key)`; when the raw data
is truthy it tries `JSON.parse`, logging and falling through to `null`
on a parse error; otherwise it resolves `null`.  The settled outcome of
`client.get` is passed in as `fetch`: `.error e` for a rejected read,
`.ok none` for a miss, `.ok (some raw)` for a hit. -/

/-- Result of `get` together with the parse-error log lines emitted. -/
structure GetOutcome where
  result : Option Value
  logs : List LogLine
deriving DecidableEq, Repr

/-- Shallow embedding of `RedisCacher.get`.  `data` is truthy in JS iff
it is a non-empty string, so the parse is only attempted on a non-empty
raw value; a parse error is logged and `null` is returned. -/
def get (parse : ParseFn) (fetch : Except RErr (Option String)) :
    Except RErr GetOutcome :=
  match fetch with
  | .error e => .error e
  | .ok data =>
    match data with
    | some raw =>
      if raw ≠ "" then
        match parse raw with
        | .ok v => .ok ⟨some v, []⟩
        | .error _ => .ok ⟨none, [.parseError raw]⟩
      else .ok ⟨none, []⟩
    | none => .ok ⟨none, []⟩

/-! ### set (redis.js lines 157–169)

`set(key, data, ttl)` serializes the value, falls back to `opts.ttl`
when `ttl == null`, and issues SETEX when the effective ttl is truthy,
plain SET otherwise. -/

/-- The write command `set` finally issues against the client. -/
inductive WriteCmd
  | setex (key : String) (ttl : Nat) (data : String)
  | setPlain (key : String) (data : String)
deriving DecidableEq, Repr

/-- Shallow embedding of `RedisCacher.set`.  `ttl == null` in JS matches
both `null` and `undefined` (here: `none`); `if (ttl)` is the JS
truthiness test, false exactly for `0` (and for a still-unset ttl). -/
def set (serialize : Value → String) (optsTtl : Option Nat)
    (pfx key : String) (v : Value) (ttl : Option Nat) : WriteCmd :=
  let data := serialize v
  let ttl := match ttl with
    | none => optsTtl
    | some t => some t
  match ttl with
  | some t => if t ≠ 0 then .setex (pfx ++ key) t data else .setPlain (pfx ++ key) data
  | none => .setPlain (pfx ++ key) data

/-! ### Scan-and-delete engine (redis.js lines 276–336)

A node's scan stream for one pattern is embedded as the list of key
batches its `data` events deliver, in order, followed by the terminal
event: `none` for a clean `end`, `some e` for a stream `error` carrying
`e`.  `_nodeScanDel` pauses the stream on every non-empty batch, issues
`node.del(keys)` for exactly that batch, resumes on success and rejects
(annotating the error with the pattern) on failure; a stream error
rejects with the error as-is; `end` resolves. -/

/-- Observable operations of one `_nodeScanDel` run, in order.  A
`pause` marks the arrival (and pausing) of a non-empty batch;
`delStart`/`delEnd` bracket the batch delete; `resume` is the stream
resumption after a successful delete. -/
inductive Op
  | pause
  | delStart (keys : List String)
  | delEnd (keys : List String) (ok : Bool)
  | resume
deriving DecidableEq, Repr

/-- Shallow embedding of `RedisCacher._nodeScanDel`: consumes the
batches in order.  An empty batch is skipped (`if (!keys.length)
return`).  A non-empty batch pauses the stream and issues `del` on that
exact batch; on success the stream resumes and the next event is
processed, on failure the promise rejects with the delete error
annotated with the pattern and no further event is processed (the
stream stays paused).  With all batches consumed, a clean end resolves
and a stream error rejects with the unmodified error. -/
def nodeScanDel (del : List String → Except RErr Unit) (pat : String)
    (batches : List (List String)) (term : Option RErr) :
    Except RErr Unit × List Op :=
  match batches with
  | [] =>
    match term with
    | none => (.ok (), [])
    | some e => (.error e, [])
  | b :: rest =>
    if b.isEmpty then nodeScanDel del pat rest term
    else
      match del b with
      | .ok _ =>
        let r := nodeScanDel del pat rest term
        (r.1, [Op.pause, Op.delStart b, Op.delEnd b true, Op.resume] ++ r.2)
      | .error e =>
        (.error { e with pattern := some pat },
         [Op.pause, Op.delStart b, Op.delEnd b false])

/-- The batches whose deletion was issued, in issue order. -/
def delsStarted : List Op → List (List String)
  | [] => []
  | .delStart b :: t => b :: delsStarted t
  | .pause :: t => delsStarted t
  | .delEnd _ _ :: t => delsStarted t
  | .resume :: t => delsStarted t

/-- The non-empty batches of a stream, in order: exactly those for which
the engine must issue a delete. -/
def nonEmptyBatches (batches : List (List String)) : List (List String) :=
  batches.filter (fun b => !b.isEmpty)

/-- Back-pressure discipline checker over an op trace.  State: is the
stream paused, and is a batch delete in flight.  It accepts only traces
in which a new batch arrives (`pause`) while flowing and not deleting, a
delete starts only while paused with no delete outstanding (at most one
outstanding delete), a delete ends only while one is in flight, and the
stream resumes only while paused after the in-flight delete completed. -/
def discipline : List Op → Bool → Bool → Bool
  | [], _, _ => true
  | .pause :: t, false, false => discipline t true false
  | .pause :: _, _, _ => false
  | .delStart _ :: t, true, false => discipline t true true
  | .delStart _ :: _, _, _ => false
  | .delEnd _ _ :: t, true, true => discipline t true false
  | .delEnd _ _ :: _, _, _ => false
  | .resume :: t, true, false => discipline t false false
  | .resume :: _, _, _ => false

/-! ### Sequential pattern processing and the cluster path
(redis.js lines 276–291, 328–336) -/

/-- Shallow embedding of `RedisCacher._sequentialPromises`: the
`reduce`-built promise chain runs `scanDel` for each element in order,
each only after the previous resolved; the first rejection settles the
chain and the callbacks of the remaining elements never run. -/
def sequentialPromises (scanDel : String → Except RErr Unit × List Op)
    (elements : List String) : Except RErr Unit × List Op :=
  match elements with
  | [] => (.ok (), [])
  | p :: rest =>
    let r := scanDel p
    match r.1 with
    | .ok _ =>
      let r2 := sequentialPromises scanDel rest
      (r2.1, r.2 ++ r2.2)
    | .error e => (.error e, r.2)

/-- A node of the embedded topology: the scan stream it produces for
the pattern under consideration, and the settled outcome of `node.del`
on each batch. -/
structure NodeConn where
  batches : List (List String)
  term : Option RErr
  del : List String → Except RErr Unit

/-- The client topology: `new Redis(...)` or `new Redis.Cluster(...)`;
for a cluster, `client.nodes()` yields the node list. -/
inductive Client
  | single (node : NodeConn)
  | cluster (nodes : List NodeConn)

/-- Settling of `Promise.all`: resolves when every promise resolved,
rejects with the error of a rejected member (determinised here to the
first rejected member in list order). -/
def promiseAll : List (Except RErr Unit) → Except RErr Unit
  | [] => .ok ()
  | .ok _ :: rest => promiseAll rest
  | .error e :: _ => .error e

/-- Shallow embedding of `RedisCacher._clusterScanDel`: runs
`_nodeScanDel` for every node of `client.nodes()` and combines the
per-node promises with `Promise.all`; the trace is a linearisation of
the concurrent per-node traces in node order. -/
def clusterScanDel (nodes : List NodeConn) (pat : String) :
    Except RErr Unit × List Op :=
  let runs := nodes.map (fun n => nodeScanDel n.del pat n.batches n.term)
  (promiseAll (runs.map Prod.fst), (runs.map Prod.snd).flatten)

/-- Shallow embedding of `RedisCacher._scanDel`: branches on whether the
client is a `Redis.Cluster` instance. -/
def scanDel (c : Client) (pat : String) : Except RErr Unit × List Op :=
  match c with
  | .single n => nodeScanDel n.del pat n.batches n.term
  | .cluster ns => clusterScanDel ns pat

/-! ### clean (redis.js lines 199–209) -/

/-- The argument of `clean`: a single pattern string or an array of
patterns (default `"*"`). -/
inductive CleanArg
  | one (pat : String)
  | many (pats : List String)

/-- A single global-replace pass of the regex `/\*\*(/g)` by `"*"` over
the characters of a pattern: each non-overlapping occurrence of `**`,
scanning left to right, is replaced by `*`. -/
def collapseStars : List Char → List Char
  | [] => []
  | [c] => [c]
  | c₁ :: c₂ :: rest =>
    if c₁ = '*' ∧ c₂ = '*' then '*' :: collapseStars rest
    else c₁ :: collapseStars (c₂ :: rest)

/-- Normalisation `clean` applies to each input pattern:
`this.prefix + match.replace(/\*\*(/g), "*")`. -/
def normalizePattern (pfx : String) (pat : String) : String :=
  pfx ++ String.mk (collapseStars pat.data)

/-- The pattern list `clean` hands to `_sequentialPromises`: the
argument wrapped into an array if it is not one, each pattern
normalised. -/
def cleanPatterns (pfx : String) : CleanArg → List String
  | .one pat => [normalizePattern pfx pat]
  | .many pats => pats.map (normalizePattern pfx)

/-- Shallow embedding of `RedisCacher.clean`: normalises the patterns
and chains `_scanDel` over them sequentially (the final `catch` logs
and rethrows, leaving the settled outcome unchanged). -/
def clean (pfx : String) (c : Client) (arg : CleanArg) :
    Except RErr Unit × List Op :=
  sequentialPromises (scanDel c) (cleanPatterns pfx arg)

/-! ### getWithTTL (redis.js lines 220–241)

`getWithTTL(key)` sends `GET` and `TTL` for the namespaced key in one
pipeline; `exec` resolves with `[[err0, data], [err1, ttl]]`.  The two
entries are embedded as the settled per-command outcomes `resGet` and
`resTtl`. -/

/-- The `data` field `getWithTTL` resolves with.  The JS variable
`data` is reassigned in place: it stays `null` on a miss, becomes the
parsed value on success, is set to `null` on a logged parse error — and
is returned **unchanged** when it is a present falsy string (only `""`),
because the truthiness guard skips the whole parse block and the final
`return { data, ttl }` hands back the raw string itself. -/
inductive TtlData
  | null
  | parsed (v : Value)
  | raw (s : String)
deriving DecidableEq, Repr

/-- The object `getWithTTL` resolves with, together with the parse-error
log lines emitted on the way. -/
structure TtlOutcome where
  data : TtlData
  ttl : Int
  logs : List LogLine
deriving DecidableEq, Repr

/-- Shallow embedding of `RedisCacher.getWithTTL`: a command-level error
on the fetched value rejects with it, then a command-level error on the
fetched ttl rejects with it; otherwise a truthy (non-empty) raw value is
parsed, a parse error being logged and `data` reassigned to `null`,
while a present falsy raw value (the empty string) skips the parse block
and is returned as-is; the promise resolves with `{ data, ttl }`. -/
def getWithTTL (parse : ParseFn) (resGet : Except RErr (Option String))
    (resTtl : Except RErr Int) : Except RErr TtlOutcome :=
  match resGet with
  | .error e0 => .error e0
  | .ok data =>
    match resTtl with
    | .error e1 => .error e1
    | .ok ttl =>
      match data with
      | some raw =>
        if raw ≠ "" then
          match parse raw with
          | .ok v => .ok ⟨.parsed v, ttl, []⟩
          | .error _ => .ok ⟨.null, ttl, [.parseError raw]⟩
        else .ok ⟨.raw raw, ttl, []⟩
      | none => .ok ⟨.null, ttl, []⟩

/-! ### init (redis.js lines 42–113) -/

/-- The `cluster` option object: `nodes` is `none` when the property is
absent (`undefined`/`null`, falsy in the `!this.opts.cluster.nodes`
test) and `some ns` when an array is supplied. -/
structure ClusterOpts where
  nodes : Option (List String)
deriving DecidableEq, Repr

/-- The configuration error type thrown by `init`. -/
structure BrokerOptionsError where
  msg : String
deriving DecidableEq, Repr

/-- Side effects of the client-construction part of `init`, in program
order. -/
inductive InitEffect
  | logSettingCluster
  | connectCluster (nodes : List String)
  | logSettingSingle
  | connectSingle
deriving DecidableEq, Repr

/-- Shallow embedding of the client construction in `RedisCacher.init`:
with a truthy `opts.cluster` whose `nodes` is falsy it throws a
`BrokerOptionsError` synchronously — before the info log and before
`new Redis.Cluster(...)` opens any connection, so the error case carries
no effect; otherwise it logs and constructs the cluster or single
client. -/
def initClient (clusterOpts : Option ClusterOpts) :
    Except BrokerOptionsError (List InitEffect) :=
  match clusterOpts with
  | some c =>
    match c.nodes with
    | none => .error ⟨"No connection details defined for cluster"⟩
    | some ns => .ok [.logSettingCluster, .connectCluster ns]
  | none => .ok [.logSettingSingle, .connectSingle]

/-! ### Lock coordinator (redis.js lines 84–101, 253–274)

The quorum algorithm itself lives in the external `redlock` package,
which is not part of this repository; only the options the cacher
passes to it (`retryCount: 0` for the non-blocking instance) and the
key/ttl handling are repository code. -/

/-- A redlock instance as the cacher configures it: only the retry
budget matters here. -/
structure RedlockInstance where
  retryCount : Nat
deriving DecidableEq, Repr

/-- An acquired lock: the lock key it holds and its ttl in ms. -/
structure LockHandle where
  key : String
  ttl : Nat
deriving DecidableEq, Repr

/-- Modelled from the spec: the acquisition loop of the external
`redlock` package (absent from src/).  `quorum i` says whether the i-th
acquisition attempt reaches quorum on a majority of the lock nodes.
The loop makes the initial attempt plus up to `retryCount` retries,
stopping at the first attempt that reaches quorum; it returns the index
of the successful attempt (or `none` when the budget is exhausted —
`LockAcquisitionError`) together with the number of attempts actually
made. -/
def attemptLoop (quorum : Nat → Bool) : Nat → Nat → Option Nat × Nat
  | 0, _ => (none, 0)
  | budget + 1, i =>
    if quorum i then (some i, 1)
    else
      let r := attemptLoop quorum budget (i + 1)
      (r.1, r.2 + 1)

/-- Modelled from the spec: `redlock.lock(key, ttl)` — runs the
acquisition loop with the instance's retry budget and resolves with a
lock on `key` on success. -/
def redlockLock (rl : RedlockInstance) (quorum : Nat → Bool)
    (key : String) (ttl : Nat) : Option LockHandle × Nat :=
  let r := attemptLoop quorum (rl.retryCount + 1) 0
  (r.1.map (fun _ => ⟨key, ttl⟩), r.2)

/-- The non-blocking redlock instance built in `init`: constructed with
`{ retryCount: 0 }`. -/
def redlockNonBlocking : RedlockInstance := ⟨0⟩

/-- The value `lock`/`tryLock` resolve with on success: the closure
`() => lock.unlock()`, capturing exactly the acquired lock. -/
structure ReleaseCap where
  lock : LockHandle
deriving DecidableEq, Repr

/-- Invoking the release capability performs `unlock` of the captured
lock: it issues the unlock of that lock key. -/
def ReleaseCap.invoke (c : ReleaseCap) : String := c.lock.key

/-- Shallow embedding of `RedisCacher.tryLock(key, ttl)`: derives the
lock key `this.prefix + key + "-lock"`, acquires through the
non-blocking redlock instance, and wraps the lock in the release
closure.  Second component: number of quorum attempts performed. -/
def tryLock (pfx : String) (quorum : Nat → Bool) (key : String)
    (ttl : Nat) : Option ReleaseCap × Nat :=
  let k := pfx ++ key ++ "-lock"
  let r := redlockLock redlockNonBlocking quorum k ttl
  (r.1.map (fun l => ⟨l⟩), r.2)

/-- `tryLock` called without a ttl argument: the declaration supplies
the default `ttl = 15000`. -/
def tryLockDefault (pfx : String) (quorum : Nat → Bool) (key : String) :
    Option ReleaseCap × Nat :=
  tryLock pfx quorum key 15000

/-- Shallow embedding of `RedisCacher.lock(key, ttl)`: identical to
`tryLock` except that it goes through the blocking redlock instance
configured from `opts.redlock`. -/
def lock (rl : RedlockInstance) (pfx : String) (quorum : Nat → Bool)
    (key : String) (ttl : Nat) : Option ReleaseCap × Nat :=
  let k := pfx ++ key ++ "-lock"
  let r := redlockLock rl quorum k ttl
  (r.1.map (fun l => ⟨l⟩), r.2)

/-- `lock` called without a ttl argument: the declaration supplies the
default `ttl = 15000`. -/
def lockDefault (rl : RedlockInstance) (pfx : String)
    (quorum : Nat → Bool) (key : String) : Option ReleaseCap × Nat :=
  lock rl pfx quorum key 15000

/-! ### Helper lemmas -/

theorem nonEmptyBatches_nil : nonEmptyBatches [] = [] := rfl

theorem nonEmptyBatches_cons_empty {b : List String} (hb : b.isEmpty = true)
    (rest : List (List String)) :
    nonEmptyBatches (b :: rest) = nonEmptyBatches rest := by
  simp [nonEmptyBatches, hb]

theorem nonEmptyBatches_cons_ne {b : List String} (hb : b.isEmpty = false)
    (rest : List (List String)) :
    nonEmptyBatches (b :: rest) = b :: nonEmptyBatches rest := by
  simp [nonEmptyBatches, hb]

theorem nodeScanDel_ok_iff (del : List String → Except RErr Unit)
    (pat : String) (batches : List (List String)) (term : Option RErr) :
    (nodeScanDel del pat batches term).1 = .ok () ↔
      term = none ∧ ∀ b ∈ nonEmptyBatches batches, del b = .ok () := by
  induction batches with
  | nil =>
    cases term <;> simp [nodeScanDel, nonEmptyBatches]
  | cons b rest ih =>
    by_cases hb : b.isEmpty
    · rw [nonEmptyBatches_cons_empty hb]
      simpa [nodeScanDel, hb] using ih
    · rw [nonEmptyBatches_cons_ne (by simpa using hb)]
      rcases hdel : del b with e | u
      · simp [nodeScanDel, hb, hdel]
      · simpa [nodeScanDel, hb, hdel] using ih

theorem discipline_ok_block (b : List String) (t : List Op) :
    discipline ([Op.pause, Op.delStart b, Op.delEnd b true, Op.resume] ++ t)
      false false = discipline t false false := by
  simp [discipline]

theorem discipline_fail_block (b : List String) :
    discipline [Op.pause, Op.delStart b, Op.delEnd b false] false false = true := by
  simp [discipline]

theorem nodeScanDel_discipline (del : List String → Except RErr Unit)
    (pat : String) (batches : List (List String)) (term : Option RErr) :
    discipline (nodeScanDel del pat batches term).2 false false = true := by
  induction batches with
  | nil => cases term <;> simp [nodeScanDel, discipline]
  | cons b rest ih =>
    by_cases hb : b.isEmpty
    · simpa [nodeScanDel, hb] using ih
    · rcases hdel : del b with e | u
      · simp [nodeScanDel, hb, hdel, discipline_fail_block]
      · simpa [nodeScanDel, hb, hdel, discipline_ok_block] using ih

theorem delsStarted_pause (t : List Op) :
    delsStarted (Op.pause :: t) = delsStarted t := rfl

theorem delsStarted_delStart (b : List String) (t : List Op) :
    delsStarted (Op.delStart b :: t) = b :: delsStarted t := rfl

theorem delsStarted_delEnd (b : List String) (ok : Bool) (t : List Op) :
    delsStarted (Op.delEnd b ok :: t) = delsStarted t := rfl

theorem delsStarted_resume (t : List Op) :
    delsStarted (Op.resume :: t) = delsStarted t := rfl

theorem delsStarted_ok_block (b : List String) (t : List Op) :
    delsStarted (Op.pause :: Op.delStart b :: Op.delEnd b true :: Op.resume :: t)
      = b :: delsStarted t := rfl

theorem nodeScanDel_dels_issued (del : List String → Except RErr Unit)
    (pat : String) (batches : List (List String)) (term : Option RErr) :
    delsStarted (nodeScanDel del pat batches term).2 =
      (nonEmptyBatches batches).take
        (delsStarted (nodeScanDel del pat batches term).2).length := by
  induction batches with
  | nil => cases term <;> simp [nodeScanDel, delsStarted]
  | cons b rest ih =>
    by_cases hb : b.isEmpty
    · rw [nonEmptyBatches_cons_empty hb]
      simpa [nodeScanDel, hb] using ih
    · rw [nonEmptyBatches_cons_ne (by simpa using hb)]
      rcases hdel : del b with e | u
      · simp [nodeScanDel, hb, hdel, delsStarted]
      · rw [nodeScanDel]
        simp only [hb, if_neg, hdel, List.singleton_append, List.cons_append,
          delsStarted_pause, delsStarted_delStart, delsStarted_delEnd,
          delsStarted_resume, List.length_cons, List.take_succ_cons]
        exact congrArg (b :: ·) ih

theorem nodeScanDel_dels_all_ok (del : List String → Except RErr Unit)
    (pat : String) (batches : List (List String)) (term : Option RErr)
    (h : ∀ b ∈ batches, del b = .ok ()) :
    delsStarted (nodeScanDel del pat batches term).2 = nonEmptyBatches batches := by
  induction batches with
  | nil => cases term <;> simp [nodeScanDel, delsStarted, nonEmptyBatches]
  | cons b rest ih =>
    have hb' : del b = .ok () := h b (by simp)
    have hrest : ∀ b ∈ rest, del b = .ok () := fun x hx => h x (by simp [hx])
    by_cases hb : b.isEmpty
    · rw [nonEmptyBatches_cons_empty hb]
      simpa [nodeScanDel, hb] using ih hrest
    · rw [nonEmptyBatches_cons_ne (by simpa using hb)]
      rw [nodeScanDel]
      simp only [hb, if_neg, hb', delsStarted_ok_block]
      exact congrArg (b :: ·) (ih hrest)

theorem nodeScanDel_all_empty (del : List String → Except RErr Unit)
    (pat : String) (batches : List (List String)) (term : Option RErr)
    (h : ∀ b ∈ batches, b = []) :
    nodeScanDel del pat batches term =
      (match term with | none => .ok () | some e => .error e, []) := by
  induction batches with
  | nil => cases term <;> simp [nodeScanDel]
  | cons b rest ih =>
    have hb : b = [] := h b (by simp)
    have hrest : ∀ b ∈ rest, b = [] := fun x hx => h x (by simp [hx])
    rw [nodeScanDel]
    simp [hb, ih hrest]

theorem sequentialPromises_ok_iff (sd : String → Except RErr Unit × List Op)
    (ps : List String) :
    (sequentialPromises sd ps).1 = .ok () ↔ ∀ p ∈ ps, (sd p).1 = .ok () := by
  induction ps with
  | nil => simp [sequentialPromises]
  | cons p rest ih =>
    rcases h : (sd p).1 with e | u
    · simp [sequentialPromises, h]
    · simpa [sequentialPromises, h] using ih

theorem sequentialPromises_cons_ok (sd : String → Except RErr Unit × List Op)
    (p : String) (rest : List String) (h : (sd p).1 = .ok ()) :
    sequentialPromises sd (p :: rest)
      = ((sequentialPromises sd rest).1, (sd p).2 ++ (sequentialPromises sd rest).2) := by
  rcases hp : sd p with ⟨r, t⟩
  simp [sequentialPromises, hp, hp ▸ h]

theorem sequentialPromises_cons_err (sd : String → Except RErr Unit × List Op)
    (p : String) (rest : List String) (e : RErr) (h : (sd p).1 = .error e) :
    sequentialPromises sd (p :: rest) = (.error e, (sd p).2) := by
  rcases hp : sd p with ⟨r, t⟩
  rw [hp] at h
  simp at h
  simp [sequentialPromises, hp, h]

theorem promiseAll_ok_iff (rs : List (Except RErr Unit)) :
    promiseAll rs = .ok () ↔ ∀ r ∈ rs, r = .ok () := by
  induction rs with
  | nil => simp [promiseAll]
  | cons r rest ih =>
    rcases r with e | u
    · simp [promiseAll]
    · simpa [promiseAll] using ih

theorem promiseAll_error_mem (rs : List (Except RErr Unit)) (e : RErr)
    (h : promiseAll rs = .error e) : .error e ∈ rs := by
  induction rs with
  | nil => simp [promiseAll] at h
  | cons r rest ih =>
    rcases r with e' | u
    · simp [promiseAll] at h
      simp [h]
    · simp [promiseAll] at h
      simp [ih h]

/-- A pattern with no two adjacent stars (nothing for the `/\*\*(/g)`
replace to match). -/
def noDoubleStar : List Char → Bool
  | [] => true
  | [_] => true
  | c₁ :: c₂ :: rest => (!(c₁ = '*' && c₂ = '*')) && noDoubleStar (c₂ :: rest)

theorem collapseStars_id (l : List Char) (h : noDoubleStar l = true) :
    collapseStars l = l := by
  induction l using collapseStars.induct with
  | case1 => rfl
  | case2 c => rfl
  | case3 c₁ c₂ rest hs ih =>
    simp [noDoubleStar, hs] at h
  | case4 c₁ c₂ rest hs ih =>
    rw [collapseStars]
    simp only [if_neg hs]
    simp [noDoubleStar] at h
    exact congrArg (c₁ :: ·) (ih h.2)

/-- One non-empty batch handled with a successful delete contributes the
block pause / delStart / delEnd / resume to the trace; with every delete
succeeding the whole trace is the concatenation of these blocks, one per
non-empty batch, in batch order. -/
theorem nodeScanDel_trace_all_ok (del : List String → Except RErr Unit)
    (pat : String) (batches : List (List String)) (term : Option RErr)
    (h : ∀ b ∈ batches, del b = .ok ()) :
    (nodeScanDel del pat batches term).2
      = ((nonEmptyBatches batches).map
          (fun b => [Op.pause, Op.delStart b, Op.delEnd b true, Op.resume])).flatten := by
  induction batches with
  | nil => cases term <;> simp [nodeScanDel, nonEmptyBatches]
  | cons b rest ih =>
    have hb' : del b = .ok () := h b (by simp)
    have hrest : ∀ x ∈ rest, del x = .ok () := fun x hx => h x (by simp [hx])
    by_cases hb : b.isEmpty
    · rw [nonEmptyBatches_cons_empty hb]
      simpa [nodeScanDel, hb] using ih hrest
    · rw [nonEmptyBatches_cons_ne (by simpa using hb)]
      rw [nodeScanDel]
      simp only [hb, if_neg, hb']
      simp [ih hrest]

/-! ### Claim theorems -/

/-- C1: `get(key)` resolves `null` on a miss; a present non-empty raw
value that fails to deserialize is logged as a parse error and resolved
as `null` rather than propagating the error; a present empty-string raw
value is resolved as `null` without any log (the code's truthiness test
skips the parse, the amendment the counterexample forces); and `get`
only ever rejects with the error of the underlying read — never because
of a deserialization failure. -/
theorem get_miss_and_lenient_parse (parse : ParseFn)
    (fetch : Except RErr (Option String)) :
    (fetch = .ok none → get parse fetch = .ok ⟨none, []⟩) ∧
    (∀ raw err, fetch = .ok (some raw) → raw ≠ "" → parse raw = .error err →
      get parse fetch = .ok ⟨none, [.parseError raw]⟩) ∧
    (fetch = .ok (some "") → get parse fetch = .ok ⟨none, []⟩) ∧
    (∀ e, get parse fetch = .error e → fetch = .error e) := by
  refine ⟨?_, ?_, ?_, ?_⟩
  · rintro rfl; rfl
  · rintro raw err rfl hraw hp
    simp [get, hraw, hp]
  · rintro rfl; simp [get]
  · intro e h
    rcases fetch with e' | data
    · simpa [get] using h
    · exfalso
      rcases data with _ | raw
      · simp [get] at h
      · by_cases hraw : raw = ""
        · simp [get, hraw] at h
        · rcases hp : parse raw with e2 | v <;> simp [get, hraw, hp] at h

/-- C1 witness: a present, non-empty, unparseable value makes `get`
resolve `null` and log the parse error. -/
theorem get_miss_and_lenient_parse_witness :
    get (fun _ => Except.error "bad json") (Except.ok (some "x"))
      = Except.ok ⟨none, [.parseError "x"]⟩ :=
  (get_miss_and_lenient_parse (fun _ => Except.error "bad json")
    (Except.ok (some "x"))).2.1 "x" "bad json" rfl (by decide) rfl

/-- C1 counterexample: with a deserializer that fails on the empty
string (as `JSON.parse` does), a stored raw value `""` is present and
unparseable, yet `get` resolves `null` with no parse-error logged —
the claim's "logs the parse error" fails for this input. -/
theorem get_present_unparseable_not_logged_cex :
    get (fun _ => Except.error "Unexpected end of JSON input")
        (Except.ok (some "")) = Except.ok ⟨none, []⟩ ∧
    (fun _ => (Except.error "Unexpected end of JSON input" : Except String Value)) ""
      = Except.error "Unexpected end of JSON input" :=
  ⟨rfl, rfl⟩

/-- C5: `set(key, value, ttl)` serializes the value; an omitted/null ttl
falls back to the configured default `opts.ttl`; a falsy/unset effective
ttl yields a plain write of the namespaced key without expiry; a truthy
effective ttl yields a write with expiry of exactly that many seconds. -/
theorem set_ttl_fallback (serialize : Value → String) (optsTtl : Option Nat)
    (pfx key : String) (v : Value) :
    (set serialize optsTtl pfx key v none = set serialize optsTtl pfx key v optsTtl) ∧
    (∀ t, t ≠ 0 →
      set serialize optsTtl pfx key v (some t) = .setex (pfx ++ key) t (serialize v)) ∧
    (set serialize optsTtl pfx key v (some 0) = .setPlain (pfx ++ key) (serialize v)) ∧
    (optsTtl = none →
      set serialize optsTtl pfx key v none = .setPlain (pfx ++ key) (serialize v)) ∧
    (∀ t, optsTtl = some t → t ≠ 0 →
      set serialize optsTtl pfx key v none = .setex (pfx ++ key) t (serialize v)) ∧
    (optsTtl = some 0 →
      set serialize optsTtl pfx key v none = .setPlain (pfx ++ key) (serialize v)) := by
  refine ⟨?_, ?_, ?_, ?_, ?_, ?_⟩
  · rcases optsTtl with _ | t <;> simp [set]
  · intro t ht; simp [set, ht]
  · simp [set]
  · rintro rfl; simp [set]
  · rintro t rfl ht; simp [set, ht]
  · rintro rfl; simp [set]

/-- C5 witness: omitted ttl with default ttl 7 configured writes with a
7-second expiry. -/
theorem set_ttl_fallback_witness :
    set (fun _ => "42") (some 7) "MOL-" "k" ⟨1⟩ none
      = WriteCmd.setex "MOL-k" 7 "42" :=
  (set_ttl_fallback (fun _ => "42") (some 7) "MOL-" "k" ⟨1⟩).2.2.2.2.1
    7 rfl (by decide)

/-- C9: with a `cluster` option whose `nodes` is absent, `init` throws a
`BrokerOptionsError` synchronously; the error case carries no
construction effect at all, so no connection is opened and no network
activity happens; with `nodes` supplied the cluster client is built. -/
theorem init_cluster_requires_nodes (c : ClusterOpts) :
    (c.nodes = none →
      initClient (some c) = .error ⟨"No connection details defined for cluster"⟩) ∧
    (∀ ns, c.nodes = some ns →
      initClient (some c) = .ok [.logSettingCluster, .connectCluster ns]) := by
  rcases c with ⟨_ | ns⟩ <;> simp [initClient]

/-- C9 witness: the concrete misconfiguration rejects with the
configuration error and produces no effect. -/
theorem init_cluster_requires_nodes_witness :
    initClient (some ⟨none⟩)
      = .error ⟨"No connection details defined for cluster"⟩ :=
  (init_cluster_requires_nodes ⟨none⟩).1 rfl

/-- C10: `clean` with an empty pattern array resolves successfully with
an empty trace: the `reduce`-built chain over zero patterns is the
already-resolved promise and no scan or delete is issued against any
node. -/
theorem clean_empty_pattern_list (pfx : String) (c : Client) :
    clean pfx c (.many []) = (.ok (), []) := rfl

/-- C6 (amended): `getWithTTL` fetches value and ttl in one pipeline; a
command-level error on either fetched entry rejects the call with that
error; otherwise it resolves with both, treating a present non-empty
value that fails to parse as `null` (logging the parse error, as `get`
does) while still returning the fetched ttl — but a present empty-string
value skips the parse block and is resolved as the raw empty string
itself, not as `null` (the amendment the counterexample forces); the
call only ever rejects with one of the two command-level errors, never
because of a parse failure. -/
theorem getWithTTL_pipeline_policy (parse : ParseFn)
    (resGet : Except RErr (Option String)) (resTtl : Except RErr Int) :
    (∀ e, resGet = .error e → getWithTTL parse resGet resTtl = .error e) ∧
    (∀ d e, resGet = .ok d → resTtl = .error e →
      getWithTTL parse resGet resTtl = .error e) ∧
    (∀ t, resGet = .ok none → resTtl = .ok t →
      getWithTTL parse resGet resTtl = .ok ⟨.null, t, []⟩) ∧
    (∀ raw t e, resGet = .ok (some raw) → resTtl = .ok t → raw ≠ "" →
      parse raw = .error e →
      getWithTTL parse resGet resTtl = .ok ⟨.null, t, [.parseError raw]⟩) ∧
    (∀ raw t v, resGet = .ok (some raw) → resTtl = .ok t → raw ≠ "" →
      parse raw = .ok v →
      getWithTTL parse resGet resTtl = .ok ⟨.parsed v, t, []⟩) ∧
    (∀ t, resGet = .ok (some "") → resTtl = .ok t →
      getWithTTL parse resGet resTtl = .ok ⟨.raw "", t, []⟩) ∧
    (∀ e, getWithTTL parse resGet resTtl = .error e →
      resGet = .error e ∨ resTtl = .error e) := by
  refine ⟨?_, ?_, ?_, ?_, ?_, ?_, ?_⟩
  · rintro e rfl; rfl
  · rintro d e rfl rfl; cases d <;> rfl
  · rintro t rfl rfl; rfl
  · rintro raw t e rfl rfl hraw hp; simp [getWithTTL, hraw, hp]
  · rintro raw t v rfl rfl hraw hp; simp [getWithTTL, hraw, hp]
  · rintro t rfl rfl; simp [getWithTTL]
  · intro e h
    rcases resGet with e0 | data
    · exact Or.inl (by simpa [getWithTTL] using h)
    · rcases resTtl with e1 | t
      · refine Or.inr ?_
        rcases data with _ | raw
        · simpa [getWithTTL] using h
        · simpa [getWithTTL] using h
      · exfalso
        rcases data with _ | raw
        · simp [getWithTTL] at h
        · by_cases hraw : raw = ""
          · simp [getWithTTL, hraw] at h
          · rcases hp : parse raw with e2 | v <;>
              simp [getWithTTL, hraw, hp] at h

/-- C6 witness: both pipeline entries ok, non-empty value unparseable —
resolves with `null` data, the fetched ttl, and a parse-error log. -/
theorem getWithTTL_pipeline_policy_witness :
    getWithTTL (fun _ => Except.error "bad json") (Except.ok (some "x"))
        (Except.ok 9) = Except.ok ⟨.null, 9, [.parseError "x"]⟩ :=
  (getWithTTL_pipeline_policy (fun _ => Except.error "bad json")
    (Except.ok (some "x")) (Except.ok 9)).2.2.2.1 "x" 9 "bad json"
    rfl rfl (by decide) rfl

/-- C6 counterexample: with a deserializer that fails on the empty
string (as `JSON.parse` does), a present raw value `""` is unparseable,
yet `getWithTTL` resolves with the raw empty string itself as the data —
not with `null` — because the truthiness guard skips the parse block and
`return { data, ttl }` hands the unchanged variable back; the claim's
"treating a present-but-unparseable value as null" fails at this
input. -/
theorem getWithTTL_empty_value_not_null_cex :
    getWithTTL (fun _ => Except.error "Unexpected end of JSON input")
        (Except.ok (some "")) (Except.ok 9) = Except.ok ⟨.raw "", 9, []⟩ ∧
    TtlData.raw "" ≠ TtlData.null ∧
    (fun _ => (Except.error "Unexpected end of JSON input" : Except String Value)) ""
      = Except.error "Unexpected end of JSON input" :=
  ⟨rfl, by simp, rfl⟩

/-- C7: `tryLock` performs exactly one quorum acquisition attempt
(zero retries) — it succeeds iff the very first attempt reaches quorum
and fails immediately otherwise; both `lock` and `tryLock` operate on
the derived lock key `prefix + key + "-lock"` and default the ttl to
15000 ms; on success the resolved value is a release capability whose
invocation unlocks exactly the acquired lock key. -/
theorem tryLock_single_attempt (pfx : String) (quorum : Nat → Bool)
    (key : String) (ttl : Nat) :
    (tryLock pfx quorum key ttl).2 = 1 ∧
    (quorum 0 = true →
      (tryLock pfx quorum key ttl).1 = some ⟨⟨pfx ++ key ++ "-lock", ttl⟩⟩) ∧
    (quorum 0 = false → (tryLock pfx quorum key ttl).1 = none) ∧
    (∀ cap, (tryLock pfx quorum key ttl).1 = some cap →
      cap.invoke = pfx ++ key ++ "-lock") ∧
    tryLockDefault pfx quorum key = tryLock pfx quorum key 15000 ∧
    (∀ rl cap, (lock rl pfx quorum key ttl).1 = some cap →
      cap.lock.key = pfx ++ key ++ "-lock" ∧ cap.lock.ttl = ttl) ∧
    (∀ rl, lockDefault rl pfx quorum key = lock rl pfx quorum key 15000) := by
  refine ⟨?_, ?_, ?_, ?_, rfl, ?_, fun _ => rfl⟩
  · cases hq : quorum 0 <;>
      simp [tryLock, redlockLock, redlockNonBlocking, attemptLoop, hq]
  · intro hq
    simp [tryLock, redlockLock, redlockNonBlocking, attemptLoop, hq]
  · intro hq
    simp [tryLock, redlockLock, redlockNonBlocking, attemptLoop, hq]
  · intro cap h
    cases hq : quorum 0
    · rw [show (tryLock pfx quorum key ttl).1 = none by
        simp [tryLock, redlockLock, redlockNonBlocking, attemptLoop, hq]] at h
      exact absurd h (by simp)
    · rw [show (tryLock pfx quorum key ttl).1
          = some ⟨⟨pfx ++ key ++ "-lock", ttl⟩⟩ by
        simp [tryLock, redlockLock, redlockNonBlocking, attemptLoop, hq]] at h
      cases h
      rfl
  · intro rl cap h
    rcases ha : (attemptLoop quorum (rl.retryCount + 1) 0).1 with _ | i
    · simp [lock, redlockLock, ha] at h
    · simp [lock, redlockLock, ha] at h
      simp [← h]

/-- C7 witness: quorum reached on the first attempt — one attempt made,
success on the derived lock key. -/
theorem tryLock_single_attempt_witness :
    (tryLock "MOL-" (fun _ => true) "res" 500).1
      = some ⟨⟨"MOL-res-lock", 500⟩⟩ ∧
    (tryLock "MOL-" (fun _ => true) "res" 500).2 = 1 :=
  ⟨(tryLock_single_attempt "MOL-" (fun _ => true) "res" 500).2.1 rfl,
   (tryLock_single_attempt "MOL-" (fun _ => true) "res" 500).1⟩

/-- C8: `clean` treats a single pattern and a one-element pattern array
identically; every pattern sent on is the namespace prefix prepended
exactly once to the pattern with each (left-to-right, non-overlapping)
literal occurrence of `**` collapsed to `*`; a pattern with no adjacent
stars passes through unchanged, so the default pattern `*` becomes
`prefix + "*"`. -/
theorem clean_normalizes_patterns (pfx pat : String) (pats : List String) :
    cleanPatterns pfx (.one pat) = cleanPatterns pfx (.many [pat]) ∧
    cleanPatterns pfx (.one pat) = [pfx ++ String.mk (collapseStars pat.data)] ∧
    (noDoubleStar pat.data = true → cleanPatterns pfx (.one pat) = [pfx ++ pat]) ∧
    (∀ l, collapseStars ('*' :: '*' :: l) = '*' :: collapseStars l) ∧
    cleanPatterns pfx (.many pats)
      = pats.map (fun p => pfx ++ String.mk (collapseStars p.data)) ∧
    cleanPatterns pfx (.one "*") = [pfx ++ "*"] := by
  refine ⟨rfl, rfl, ?_, ?_, rfl, ?_⟩
  · intro h
    simp [cleanPatterns, normalizePattern, collapseStars_id pat.data h]
  · intro l
    cases l <;> simp [collapseStars]
  · simp [cleanPatterns, normalizePattern]
    rfl

/-- C8 witness: a pattern with separated stars is only prefixed, and a
double star collapses. -/
theorem clean_normalizes_patterns_witness :
    cleanPatterns "MOL-" (.one "a*b*") = ["MOL-a*b*"] :=
  (clean_normalizes_patterns "MOL-" "a*b*" []).2.2.1 (by decide)

/-- C2: one `_nodeScanDel` run obeys the back-pressure discipline — a
batch only arrives while the stream flows, its delete starts only while
the stream is paused with no delete outstanding (at most one
batch-delete outstanding per node per pattern), and the stream resumes
only after the in-flight delete completed; the issued deletes are
exactly (a prefix of, and with all deletes succeeding, all of) the
non-empty batches in arrival order; with every delete succeeding the
trace is precisely one pause/delete/resume block per non-empty batch;
all-empty batches issue no delete at all; and a pattern matching zero
keys resolves successfully with an empty trace. -/
theorem nodeScanDel_backpressure (del : List String → Except RErr Unit)
    (pat : String) (batches : List (List String)) (term : Option RErr) :
    discipline (nodeScanDel del pat batches term).2 false false = true ∧
    delsStarted (nodeScanDel del pat batches term).2
      = (nonEmptyBatches batches).take
          (delsStarted (nodeScanDel del pat batches term).2).length ∧
    ((∀ b ∈ batches, del b = .ok ()) →
      delsStarted (nodeScanDel del pat batches term).2 = nonEmptyBatches batches) ∧
    ((∀ b ∈ batches, del b = .ok ()) →
      (nodeScanDel del pat batches term).2
        = ((nonEmptyBatches batches).map
            (fun b => [Op.pause, Op.delStart b, Op.delEnd b true, Op.resume])).flatten) ∧
    ((∀ b ∈ batches, b = []) → term = none →
      nodeScanDel del pat batches term = (.ok (), [])) ∧
    nodeScanDel del pat [] none = (.ok (), []) := by
  refine ⟨nodeScanDel_discipline del pat batches term,
    nodeScanDel_dels_issued del pat batches term,
    nodeScanDel_dels_all_ok del pat batches term,
    nodeScanDel_trace_all_ok del pat batches term, ?_, rfl⟩
  intro h ht
  subst ht
  simpa using nodeScanDel_all_empty del pat batches none h

/-- C2 witness: concrete run — one empty batch skipped, the two
non-empty batches deleted as exactly those batches. -/
theorem nodeScanDel_backpressure_witness :
    delsStarted (nodeScanDel (fun _ => Except.ok ()) "MOL-*"
        [["a"], [], ["b", "c"]] none).2 = [["a"], ["b", "c"]] := by
  have := (nodeScanDel_backpressure (fun _ => Except.ok ()) "MOL-*"
    [["a"], [], ["b", "c"]] none).2.2.1 (fun b _ => rfl)
  simpa [nonEmptyBatches] using this

/-- C3 (amended): the pattern chain is strictly sequential — the run for
the head pattern settles first, the rest of the chain only runs after it
resolved, and the chain resolves iff every pattern's run resolves; the
first failing pattern settles the chain with its error and the remaining
patterns contribute nothing (fail-fast); a batch-delete failure rejects
with the node's error annotated with the offending pattern, while a
stream/iterator error rejects with the node's error unchanged, carrying
no pattern context; `clean` is exactly this chain over the normalised
patterns. -/
theorem clean_sequential_failfast (sd : String → Except RErr Unit × List Op)
    (p : String) (rest : List String) :
    ((sequentialPromises sd (p :: rest)).1 = .ok () ↔
      (sd p).1 = .ok () ∧ ∀ q ∈ rest, (sd q).1 = .ok ()) ∧
    ((sd p).1 = .ok () →
      sequentialPromises sd (p :: rest)
        = ((sequentialPromises sd rest).1,
           (sd p).2 ++ (sequentialPromises sd rest).2)) ∧
    (∀ e, (sd p).1 = .error e →
      sequentialPromises sd (p :: rest) = (.error e, (sd p).2)) ∧
    (∀ del pat b bs term e, b ≠ [] → del b = .error e →
      (nodeScanDel del pat (b :: bs) term).1
        = .error { e with pattern := some pat }) ∧
    (∀ del pat e, (nodeScanDel del pat ([] : List (List String)) (some e)).1
        = .error e) ∧
    (∀ pfx c arg, clean pfx c arg
        = sequentialPromises (scanDel c) (cleanPatterns pfx arg)) := by
  refine ⟨?_, sequentialPromises_cons_ok sd p rest,
    sequentialPromises_cons_err sd p rest, ?_, fun _ _ _ => rfl,
    fun _ _ _ => rfl⟩
  · simpa using sequentialPromises_ok_iff sd (p :: rest)
  · intro del pat b bs term e hb hdel
    have hb' : b.isEmpty = false := by
      cases b
      · exact absurd rfl hb
      · rfl
    simp [nodeScanDel, hb', hdel]

/-- C3 witness: a head pattern whose run fails settles the chain with
that failure and an untouched tail. -/
theorem clean_sequential_failfast_witness :
    sequentialPromises
        (fun _ => (Except.error ⟨"boom", some "q"⟩, ([] : List Op)))
        ["q", "r"]
      = (Except.error ⟨"boom", some "q"⟩, []) :=
  (clean_sequential_failfast
    (fun _ => (Except.error ⟨"boom", some "q"⟩, ([] : List Op)))
    "q" ["r"]).2.2.1 ⟨"boom", some "q"⟩ rfl

/-- C3 counterexample: a stream/iterator error on the node makes `clean`
reject with the node's error unchanged — its `pattern` field is still
unset (`none`), so the rejection does not carry the offending pattern,
contrary to the claim's "whether the failure was a delete error or a
stream/iterator error". -/
theorem clean_stream_error_lacks_pattern_cex :
    (clean "MOL-"
        (.single ⟨[], some ⟨"stream failure", none⟩, fun _ => Except.ok ()⟩)
        (.one "p")).1
      = Except.error ⟨"stream failure", none⟩ ∧
    RErr.pattern ⟨"stream failure", none⟩ ≠ some "MOL-p" := by
  exact ⟨rfl, by simp⟩

/-- C4: on a cluster topology the engine runs the per-node
scan-and-delete procedure on every node of `client.nodes()`, each node
over its own stream and delete outcomes, and combines them with
`Promise.all`: the pattern resolves iff every node's run resolves, i.e.
iff every node's stream reaches end-of-stream with no stream error and
no failed batch delete; any rejection of the combined run is the
rejection of one of the nodes. -/
theorem clusterScanDel_every_node (nodes : List NodeConn) (pat : String) :
    ((clusterScanDel nodes pat).1 = .ok () ↔
      ∀ n ∈ nodes, (nodeScanDel n.del pat n.batches n.term).1 = .ok ()) ∧
    ((clusterScanDel nodes pat).1 = .ok () ↔
      ∀ n ∈ nodes, n.term = none ∧
        ∀ b ∈ nonEmptyBatches n.batches, n.del b = .ok ()) ∧
    (∀ e, (clusterScanDel nodes pat).1 = .error e →
      ∃ n ∈ nodes, (nodeScanDel n.del pat n.batches n.term).1 = .error e) ∧
    scanDel (.cluster nodes) pat = clusterScanDel nodes pat := by
  have hfst : (clusterScanDel nodes pat).1
      = promiseAll (nodes.map
          (fun n => (nodeScanDel n.del pat n.batches n.term).1)) := by
    simp [clusterScanDel, List.map_map]
    rfl
  have h1 : (clusterScanDel nodes pat).1 = .ok () ↔
      ∀ n ∈ nodes, (nodeScanDel n.del pat n.batches n.term).1 = .ok () := by
    rw [hfst, promiseAll_ok_iff]
    simp
  refine ⟨h1, ?_, ?_, rfl⟩
  · rw [h1]
    exact forall₂_congr fun n _ =>
      nodeScanDel_ok_iff n.del pat n.batches n.term
  · intro e he
    rw [hfst] at he
    have := promiseAll_error_mem _ e he
    simpa [eq_comm] using this

/-- C4 witness: two nodes, both reaching end-of-stream cleanly — the
pattern resolves. -/
theorem clusterScanDel_every_node_witness :
    (clusterScanDel
        [⟨[["a"]], none, fun _ => Except.ok ()⟩,
         ⟨[], none, fun _ => Except.ok ()⟩] "MOL-*").1 = Except.ok () := by
  refine (clusterScanDel_every_node _ "MOL-*").1.mpr ?_
  intro n hn
  simp only [List.mem_cons, List.not_mem_nil, or_false] at hn
  rcases hn with rfl | rfl <;> rfl

end RedisCacher
